import Mathlib

/-!
# Verification of the almanac-pro aggregation and market-solver core

Shallow embedding of the pure computation layer of the repository:

* `src/pages/CustomerGroups.jsx` — row normalizer, model scope filter,
  categorical/numeric summarizer (`demoSummary`), attitude scorer
  (`percentAgreeMappedPolicy` and its helpers), price bucketizer
  (`coercePrice`, `getFixedBucketRanges`, `buildBucketsForRows`).
* `src/pages/MarketSimulation.jsx` — demand model (`deriveAll`),
  closed-form inverse (`invertElasticityForPrice`), bisection solvers
  (`solvePriceForRevenue/Profit/Margin`, `bisectPrice`) and the edit
  dispatcher (`handleEdit`).

Modelling conventions:

* JavaScript numbers are modelled by exact arithmetic: `ℚ` for the
  aggregation layer (all its arithmetic is +, *, /, floor on data values)
  and `ℝ` for the market solver (which uses `Math.pow` with real
  exponents, modelled by `Real.rpow`).  IEEE-754 rounding is not
  modelled.
* `NaN` and the infinities are collapsed into the non-finite value
  `JSValue.nan`; every embedded code path distinguishes numbers only via
  `Number.isFinite`, equality, and map lookups whose keys are built from
  finite numbers, so the collapse is not observable by the embedded code.
* JavaScript objects (rows) are total maps `String → JSValue`; an absent
  key reads as `undefined`, as in JS.
* `String(x)` for a finite number is rendered by `numToString`; the JS
  decimal formatting of doubles is approximated (integers render exactly,
  non-integers as `num/den`).  The rendered text is used by the embedded
  code only for map-key lookups and for emptiness tests, never for
  arithmetic: `Number(String(x))` round-trips are embedded directly as
  the identity, which is exact for finite JS numbers.
* The string grammar accepted by JS `Number()` is embedded for signed
  decimal literals with optional fraction and exponent (the only shapes
  the dataset's fields use); hex/binary/octal literals and `Infinity`
  parse to the non-finite result.
* JS whitespace (`trim`, `/\s+/`) is modelled by the ASCII whitespace
  characters; `toLowerCase`/`toUpperCase` by ASCII case mapping.
-/

/-- JavaScript runtime values as they occur in the data rows: `undefined`,
`null`, booleans, finite numbers (exact), the non-finite numbers (NaN and
the infinities, collapsed), and strings. -/
inductive JSValue where
  | undef : JSValue
  | null : JSValue
  | nan : JSValue
  | bool : Bool → JSValue
  | num : ℚ → JSValue
  | str : String → JSValue
deriving DecidableEq

/-- The whitespace class used by JS `trim()` and `/\s+/`, restricted to
ASCII (space, tab, newline, carriage return, vertical tab, form feed). -/
def isJsSpace (c : Char) : Bool :=
  c == ' ' || c == '\t' || c == '\n' || c == '\r' ||
    c == Char.ofNat 11 || c == Char.ofNat 12

/-- JS `String.prototype.trim` on a character list. -/
def jsTrimChars (cs : List Char) : List Char :=
  ((cs.dropWhile isJsSpace).reverse.dropWhile isJsSpace).reverse

/-- JS `String.prototype.trim`. -/
def jsTrim (s : String) : String :=
  String.mk (jsTrimChars s.data)

/-- Decimal value of a digit list (most significant first). -/
def digitsVal (ds : List Char) : Nat :=
  ds.foldl (fun a c => a * 10 + (c.toNat - 48)) 0

/-- Exponent suffix of a JS numeric literal: either nothing, or
`e`/`E` followed by an optionally signed digit string.  Any other
trailing text makes the whole literal invalid (JS `Number` returns NaN). -/
def parseExpPart (m : ℚ) (cs : List Char) : Option ℚ :=
  match cs with
  | [] => some m
  | c :: rest =>
    if c == 'e' || c == 'E' then
      match rest with
      | '+' :: ds =>
        if !ds.isEmpty && ds.all Char.isDigit then
          some (m * 10 ^ digitsVal ds) else none
      | '-' :: ds =>
        if !ds.isEmpty && ds.all Char.isDigit then
          some (m / 10 ^ digitsVal ds) else none
      | ds =>
        if !ds.isEmpty && ds.all Char.isDigit then
          some (m * 10 ^ digitsVal ds) else none
    else none

/-- Unsigned JS decimal literal: `digits`, `digits.digits`, `digits.`,
or `.digits`, each with an optional exponent. -/
def parseUnsigned (cs : List Char) : Option ℚ :=
  let ip := cs.takeWhile Char.isDigit
  let r1 := cs.dropWhile Char.isDigit
  match r1 with
  | '.' :: r2 =>
    let fp := r2.takeWhile Char.isDigit
    let r3 := r2.dropWhile Char.isDigit
    if ip.isEmpty && fp.isEmpty then none
    else parseExpPart ((digitsVal ip : ℚ) + (digitsVal fp : ℚ) / 10 ^ fp.length) r3
  | _ => if ip.isEmpty then none else parseExpPart (digitsVal ip : ℚ) r1

/-- Optionally signed JS decimal literal. -/
def parseSigned (cs : List Char) : Option ℚ :=
  match cs with
  | '+' :: rest => parseUnsigned rest
  | '-' :: rest => (parseUnsigned rest).map (fun q => -q)
  | _ => parseUnsigned cs

/-- JS `Number(string)` restricted to finite results: whitespace-only
strings give `0`; otherwise the trimmed text must be a signed decimal
literal.  `none` stands for a non-finite result (NaN or ±Infinity). -/
def jsParseNumber (s : String) : Option ℚ :=
  let t := jsTrimChars s.data
  if t.isEmpty then some 0 else parseSigned t

/-- Decimal digits of a natural number, most significant first; the fuel
argument (always at least 1 when called) makes the recursion structural. -/
def natToCharsAux : Nat → Nat → List Char
  | 0, _ => []
  | fuel + 1, n =>
    if n < 10 then [Nat.digitChar n]
    else natToCharsAux fuel (n / 10) ++ [Nat.digitChar (n % 10)]

/-- Decimal digits of a natural number, most significant first. -/
def natToChars (n : Nat) : List Char := natToCharsAux (n + 1) n

/-- Rendering of a finite JS number as a string.  Integers render as in
JS; non-integral rationals are rendered as `num/den`, an approximation of
the JS double formatting (the embedded code uses this text only for
map-key lookups and emptiness tests, never for arithmetic). -/
def numToString (q : ℚ) : String :=
  (if q.num < 0 then "-" else "") ++ String.mk (natToChars q.num.natAbs) ++
    (if q.den == 1 then "" else "/" ++ String.mk (natToChars q.den))

/-- JS `String(v)`. -/
def jsToString : JSValue → String
  | .undef => "undefined"
  | .null => "null"
  | .nan => "NaN"
  | .bool b => if b then "true" else "false"
  | .num q => q |> numToString
  | .str s => s

/-- JS `Number(v)` restricted to finite results (`none` = non-finite),
which is exactly the information `Number.isFinite(Number(v))`-guarded
code can observe. -/
def jsNumberOf : JSValue → Option ℚ
  | .undef => none
  | .null => some 0
  | .nan => none
  | .bool b => some (if b then 1 else 0)
  | .num q => some q
  | .str s => jsParseNumber s

/-- JS `Number(v)` as a value (used where the result is a map key). -/
def jsNumberJS (v : JSValue) : JSValue :=
  match jsNumberOf v with
  | some q => .num q
  | none => .nan

/-- JS truthiness of a value. -/
def jsTruthy : JSValue → Bool
  | .undef => false
  | .null => false
  | .nan => false
  | .bool b => b
  | .num q => decide (q ≠ 0)
  | .str s => decide (s ≠ "")

/-- A data row: a JS object read by string key; absent keys read as
`undefined`. -/
def Rec : Type := String → JSValue

/-- Build a concrete row from an association list (for concrete inputs). -/
def recOf (l : List (String × JSValue)) : Rec :=
  fun k => (((l.find? (fun p => p.1 == k)).map Prod.snd).getD .undef)

/-- A per-field code→label map (`demoLookups.get(field)`), as the
association list of its entries; lookup is by JS Map key equality
(SameValueZero, which our `DecidableEq` matches). -/
def CodeMap : Type := List (JSValue × String)

/-- JS `Map.prototype.get` (as an `Option`). -/
def cmFind (cm : CodeMap) (k : JSValue) : Option String :=
  (cm.find? (fun p => p.1 == k)).map Prod.snd

/-! ## Attitude scorer (`CustomerGroups.jsx` lines 538–614) -/

/-- The "top-3" agree set (`AGREE_TOP3`). -/
def AGREE_TOP3 : List String := ["strongly agree", "agree", "somewhat agree"]

/-- The "top-2" agree set (`AGREE_TOP2`). -/
def AGREE_TOP2 : List String := ["strongly agree", "somewhat agree"]

/-- Collapse every maximal run of whitespace to a single space
(`.replace(/\s+/g, " ")`); `prev` records whether the previous character
belonged to a run already emitted. -/
def collapseWsAux : List Char → Bool → List Char
  | [], _ => []
  | c :: rest, prev =>
    if isJsSpace c then
      if prev then collapseWsAux rest true
      else ' ' :: collapseWsAux rest true
    else c :: collapseWsAux rest false

/-- Source `normalizeLabel` (lines 561–566): trim, lowercase, collapse internal
whitespace runs to a single space. -/
def normalizeLabel (s : String) : String :=
  String.mk (collapseWsAux ((jsTrimChars s.data).map Char.toLower) false)

/-- Source `getAttRaw` (lines 545–560): the row's direct field value when it is
non-null and non-blank, else the first non-blank aliased field
(`_LABEL`, `_TXT`, `_TEXT`, `_DESC`, `_LAB`), else `null` (here `none`). -/
def getAttRaw (row : Rec) (varName : String) : Option JSValue :=
  let present (v : JSValue) : Bool :=
    v != .undef && v != .null && jsTrim (jsToString v) != ""
  if present (row varName) then some (row varName)
  else
    let aliases := [varName ++ "_LABEL", varName ++ "_TXT", varName ++ "_TEXT",
      varName ++ "_DESC", varName ++ "_LAB"]
    (aliases.find? (fun a => present (row a))).map row

/-- Source `resolveMappedLabel` (lines 567–581): look the raw value up in the
field's code map — as the raw value, as its string form, and (when the
string form parses as a finite number) as that number and its string
form — falling back to the stringified raw value. -/
def resolveMappedLabel (row : Rec) (varName : String) (cm : CodeMap) :
    Option String :=
  match getAttRaw row varName with
  | none => none
  | some raw =>
    match cmFind cm raw with
    | some l => some l
    | none =>
      let asStr := jsToString raw
      match cmFind cm (.str asStr) with
      | some l => some l
      | none =>
        match jsParseNumber asStr with
        | some q =>
          match cmFind cm (.num q) with
          | some l => some l
          | none =>
            match cmFind cm (.str (numToString q)) with
            | some l => some l
            | none => some asStr
        | none => some asStr

/-- Source `agreePolicyFor` (lines 582–586): `OL_MODEL_GRP` → loyal-only,
`/^STATE_/i` → top-2, otherwise top-3.  The case-insensitive regex test
is embedded as an ASCII-lowercased startsWith. -/
def agreePolicyFor (varName : String) : String :=
  if varName = "OL_MODEL_GRP" then "LOYAL_ONLY"
  else if varName.toLower.startsWith "state_" then "TOP2"
  else "TOP3"

/-- Source `isTopNAgree` (lines 587–592): normalize the label, then test it
against the agree set selected by the policy. -/
def isTopNAgree (label : String) (policy : String) : Bool :=
  let s := normalizeLabel label
  if policy = "LOYAL_ONLY" then s = "loyal"
  else if policy = "TOP2" then AGREE_TOP2.contains s
  else AGREE_TOP3.contains s

/-- The three counters accumulated by the row loop of
`percentAgreeMappedPolicy` (lines 599–611): `(agree, valid, missing)`.
A row whose resolved label is `null` or the empty string (the JS falsy
strings) is missing; otherwise it is valid, and counted as agreeing when
`isTopNAgree` accepts it under the field's policy.  The loop only adds
to commutative counters, so it is embedded by structural recursion. -/
def agreeStats (rows : List Rec) (varName : String) (cm : CodeMap) :
    Nat × Nat × Nat :=
  match rows with
  | [] => (0, 0, 0)
  | r :: rest =>
    let (a, v, m) := agreeStats rest varName cm
    match resolveMappedLabel r varName cm with
    | none => (a, v, m + 1)
    | some lab =>
      if lab = "" then (a, v, m + 1)
      else if isTopNAgree lab (agreePolicyFor varName) then (a + 1, v + 1, m)
      else (a, v + 1, m)

/-- Source `percentAgreeMappedPolicy` (lines 593–614).  The denominator is
`valid + missing` under the default include-missing policy, `valid`
otherwise; a zero denominator yields NaN, embedded as `none`. -/
def percentAgreeMappedPolicy (rows : List Rec) (varName : String)
    (cm : CodeMap) (includeMissingInDenom : Bool := true) : Option ℚ :=
  let (agree, valid, missing) := agreeStats rows varName cm
  let denom := if includeMissingInDenom then valid + missing else valid
  if 0 < denom then some ((agree : ℚ) / (denom : ℚ) * 100) else none

/-! ## Row normalizer and model scope filter (lines 654–691, 799–802) -/

/-- A normalized row: the source record together with the canonical
fields the normalizer overwrites on it (`{...r, model, raw_x, raw_y,
emb_x, emb_y, cluster}`). -/
structure NRow where
  src : Rec
  model : String
  raw_x : ℚ
  raw_y : ℚ
  emb_x : ℚ
  emb_y : ℚ
  cluster : ℚ

/-- Reading a field of a normalized row sees the overwritten canonical
keys first, then the original record (the JS object spread). -/
def NRow.get (r : NRow) (k : String) : JSValue :=
  if k = "model" then .str r.model
  else if k = "raw_x" then .num r.raw_x
  else if k = "raw_y" then .num r.raw_y
  else if k = "emb_x" then .num r.emb_x
  else if k = "emb_y" then .num r.emb_y
  else if k = "cluster" then .num r.cluster
  else r.src k

/-- The model alias chain (lines 657–663):
`r?.model ?? r?.BLD_DESC_RV_MODEL ?? r?.Model ?? r?.model_name ??
r?.MODEL ?? null` — `??` skips only `undefined`/`null`. -/
def resolveModelVal (r : Rec) : JSValue :=
  let coalesce (v w : JSValue) : JSValue :=
    match v with
    | .undef => w
    | .null => w
    | _ => v
  coalesce (r "model") (coalesce (r "BLD_DESC_RV_MODEL") (coalesce (r "Model")
    (coalesce (r "model_name") (coalesce (r "MODEL") .null))))

/-- One iteration of the normalizer loop (lines 656–684): coerce the
three numeric fields, and keep the row only when the resolved model is
truthy and all three numbers are finite. -/
def normalizeOne (r : Rec) : Option NRow :=
  match jsNumberOf (r "emb_x"), jsNumberOf (r "emb_y"),
      jsNumberOf (r "cluster") with
  | some x, some y, some cl =>
    if jsTruthy (resolveModelVal r) then
      some { src := r, model := jsToString (resolveModelVal r), raw_x := x,
             raw_y := y, emb_x := x, emb_y := y, cluster := cl }
    else none
  | _, _, _ => none

/-- The `rows` normalizer (lines 654–686): malformed records are dropped
whole; there is no error path. -/
def rowsNormalize (dataPoints : List Rec) : List NRow :=
  dataPoints.filterMap normalizeOne

/-- Source `allModels` (lines 688–691): the distinct model names, sorted. -/
def allModels (rows : List NRow) : List String :=
  List.insertionSort (fun a b => a ≤ b) (rows.map NRow.model).dedup

/-- Source `baseByModel` (lines 799–802): filter the rows to the active model
selection; an empty selection falls back to all models. -/
def baseByModel (rows : List NRow) (selectedModels : List String) :
    List NRow :=
  let active := if selectedModels.isEmpty then allModels rows
    else selectedModels
  rows.filter (fun r => active.contains r.model)

/-! ## Categorical/numeric summarizer (`demoSummary`, lines 1063–1180) -/

/-- One item of a categorical summary section. -/
structure SItem where
  label : String
  count : Nat
  pct : ℚ
deriving DecidableEq

/-- A summary section: a numeric average (Financing fields with at least
one coercible value) or a categorical percentage breakdown. -/
inductive SummarySection where
  | numeric : ℚ → Nat → Nat → SummarySection
  | categorical : List SItem → Nat → SummarySection
deriving DecidableEq

/-- Source `coerceNumber` (lines 411–415): `Number(String(v).trim().replace(/,/g,
""))`, non-finite results excluded.  For a value that is already a finite
number the JS string round-trip is the identity. -/
def coerceNumber : JSValue → Option ℚ
  | .null => none
  | .undef => none
  | .num q => some q
  | .nan => none
  | .bool _ => none
  | .str s => jsParseNumber (String.mk ((jsTrimChars s.data).filter (· ≠ ',')))

/-- The label resolution inlined in the categorical loop of `demoSummary`
(lines 1128–1140): try the raw value, its string form, its numeric form,
and the parse of the trimmed label, falling back to the trimmed label. -/
def resolveLabelInline (rawVal : JSValue) (cm : CodeMap) : String :=
  let label := jsTrim (jsToString rawVal)
  match cmFind cm rawVal with
  | some l => l
  | none =>
    match cmFind cm (.str (jsToString rawVal)) with
    | some l => l
    | none =>
      match cmFind cm (jsNumberJS rawVal) with
      | some l => l
      | none =>
        match jsParseNumber label with
        | some q =>
          match cmFind cm (.num q) with
          | some l => l
          | none =>
            match cmFind cm (.str (numToString q)) with
            | some l => l
            | none => label
        | none =>
          match cmFind cm (.str "NaN") with
          | some l => l
          | none => label

/-- Step `counts.set(label, (counts.get(label) || 0) + 1)` on an
insertion-ordered association list. -/
def bumpLabel : List (String × Nat) → String → List (String × Nat)
  | [], l => [(l, 1)]
  | (k, c) :: rest, l =>
    if k = l then (k, c + 1) :: rest else (k, c) :: bumpLabel rest l

/-- One row of the categorical counting loop (lines 1117–1144) applied to
the accumulator `(counts, validCount, missingCount)`. -/
def catStep (field : String) (cm : CodeMap)
    (acc : List (String × Nat) × Nat × Nat) (r : Rec) :
    List (String × Nat) × Nat × Nat :=
  let (counts, valid, missing) := acc
  let rawVal := r field
  if rawVal = .undef ∨ rawVal = .null ∨ jsTrim (jsToString rawVal) = "" then
    (counts, valid, missing + 1)
  else
    (bumpLabel counts (resolveLabelInline rawVal cm), valid + 1, missing)

/-- The categorical counting loop over all rows. -/
def catCounts (rows : List Rec) (field : String) (cm : CodeMap) :
    List (String × Nat) × Nat × Nat :=
  rows.foldl (catStep field cm) ([], 0, 0)

/-- JS `Math.abs` on the exact rationals. -/
def jsAbs (q : ℚ) : ℚ := if q < 0 then -q else q

/-- Step `items[items.length - 1].pct += diff` (line 1168). -/
def setLastPct : List SItem → ℚ → List SItem
  | [], _ => []
  | [x], d => [{ x with pct := x.pct + d }]
  | x :: xs, d => x :: setLastPct xs d

/-- The categorical arm of `demoSummary` (lines 1113–1171): count labels
and missing values, skip the field entirely when there is no data, build
percentage items sorted descending by count (JS sort is stable), append
the synthetic "Unknown" item for missing values, and add any deviation of
the percentage sum from 100 beyond 0.1 onto the last item. -/
def categoricalOf (rows : List Rec) (field : String) (cm : CodeMap) :
    Option SummarySection :=
  let (counts, valid, missing) := catCounts rows field cm
  if valid + missing = 0 then none
  else
    let fieldTotal : ℚ := (valid + missing : Nat)
    let items0 := counts.map
      (fun p => SItem.mk p.1 p.2 ((p.2 : ℚ) / fieldTotal * 100))
    let sorted := List.insertionSort (fun a b => b.count ≤ a.count) items0
    let items1 :=
      if 0 < missing then
        sorted ++ [SItem.mk "Unknown" missing ((missing : ℚ) / fieldTotal * 100)]
      else sorted
    let sumPct : ℚ := items1.foldl (fun a b => a + b.pct) (0 : ℚ)
    let items2 :=
      if 0.1 < jsAbs (sumPct - 100) ∧ 0 < items1.length then
        setLastPct items1 (100 - sumPct)
      else items1
    some (.categorical items2 (valid + missing))

/-- The numeric-branch accumulator of `demoSummary` (lines 1079–1094):
`(sum, wsum, nValid, nMissing)`. -/
def finStats (rows : List Rec) (field : String) : ℚ × ℚ × Nat × Nat :=
  rows.foldl
    (fun acc r =>
      match coerceNumber (r field) with
      | some n => (acc.1 + n, acc.2.1 + 1, acc.2.2.1 + 1, acc.2.2.2)
      | none => (acc.1, acc.2.1, acc.2.2.1, acc.2.2.2 + 1))
    (0, 0, 0, 0)

/-- One field of `demoSummary` (lines 1072–1171): Financing fields not in
the categorical override set take the numeric-average arm when at least
one row coerces to a finite number (the `wsum > 0` guard of line 1097 is
kept verbatim; its NaN arm is unreachable since `wsum = nValid` and is
rendered as 0); otherwise the field falls through to the categorical arm. -/
def demoSummarizeField (isFinancingNumeric : Bool) (rows : List Rec)
    (field : String) (cm : CodeMap) : Option SummarySection :=
  if isFinancingNumeric then
    if 0 < (finStats rows field).2.2.1 then
      some (.numeric
        (if 0 < (finStats rows field).2.1 then
          (finStats rows field).1 / (finStats rows field).2.1
        else 0)
        (finStats rows field).2.2.1 (finStats rows field).2.2.2)
    else categoricalOf rows field cm
  else categoricalOf rows field cm

/-! ## Price bucketizer (lines 439–519) -/

/-- Source `coercePrice` (lines 439–443): strip `$` and `,`, trim, then
`Number`; `null`/`undefined` and non-finite results are excluded
(`none`).  For a value that is already a finite number the JS string
round-trip is the identity. -/
def coercePrice : JSValue → Option ℚ
  | .null => none
  | .undef => none
  | .num q => some q
  | .nan => none
  | .bool _ => none
  | .str s =>
    jsParseNumber
      (String.mk (jsTrimChars (s.data.filter (fun c => c ≠ '$' ∧ c ≠ ','))))

/-- A fixed bucket range; `low = none` encodes `-Infinity` and
`high = none` encodes `Infinity`. -/
structure BRange where
  low : Option ℚ
  high : Option ℚ
  label : String
deriving DecidableEq

/-- Source `BUCKET_MIN` (line 445). -/
def BUCKET_MIN : ℚ := 30000

/-- Source `BUCKET_STEP` (line 446). -/
def BUCKET_STEP : ℚ := 5000

/-- Source `OVER_MIN` (line 447). -/
def OVER_MIN : ℚ := 110000

/-- Source `fmtK` (lines 449–451): `"$" + Math.round(n / 1000) + "k"`. -/
def fmtK (n : ℚ) : String :=
  let r : ℤ := ⌊n / 1000 + 1 / 2⌋
  "$" ++ (if r < 0 then "-" else "") ++ String.mk (natToChars r.natAbs) ++ "k"

/-- Source `fmtKDec` (lines 452–454): `"$" + (n / 1000).toFixed(1) + "k"`;
`toFixed(1)` rounds half toward +∞. -/
def fmtKDec (n : ℚ) : String :=
  let t : ℤ := ⌊n / 1000 * 10 + 1 / 2⌋
  "$" ++ (if t < 0 then "-" else "") ++ String.mk (natToChars (t / 10).natAbs) ++
    "." ++ String.mk (natToChars (t % 10).natAbs) ++ "k"

/-- Source `bucketLabel` (lines 455–460); the `high - 100` fence-post adjustment
is display-only. -/
def bucketLabel (low high : Option ℚ) : String :=
  match low, high with
  | none, _ => "Under $30k"
  | _, none => "$110k+"
  | some l, some h => fmtK l ++ " to " ++ fmtKDec (h - 100)

/-- Source `getFixedBucketRanges` (lines 461–478): the open under-$30k bucket,
sixteen $5k-wide buckets from $30k to $110k, and the open $110k+ bucket.
The JS `for` loop runs for `low = 30000, 35000, …, 105000`. -/
def getFixedBucketRanges : List BRange :=
  [BRange.mk none (some BUCKET_MIN) (bucketLabel none (some BUCKET_MIN))] ++
    (List.range 16).map (fun i =>
      let low := BUCKET_MIN + BUCKET_STEP * i
      BRange.mk (some low) (some (low + BUCKET_STEP))
        (bucketLabel (some low) (some (low + BUCKET_STEP)))) ++
    [BRange.mk (some OVER_MIN) none (bucketLabel (some OVER_MIN) none)]

/-- The bucket index chosen for a finite price (lines 491–505): below
`BUCKET_MIN` → 0, at or above `OVER_MIN` → the last bucket (index 17),
otherwise `1 + max(0, min(⌊(v - BUCKET_MIN) / BUCKET_STEP⌋, 15))`. -/
def bucketIdx (v : ℚ) : Nat :=
  if v < BUCKET_MIN then 0
  else if OVER_MIN ≤ v then 17
  else 1 + (max 0 (min (⌊(v - BUCKET_MIN) / BUCKET_STEP⌋) 15)).toNat

/-- Step `buckets[idx].count += 1` on the count list. -/
def bumpAt : List Nat → Nat → List Nat
  | [], _ => []
  | c :: rest, 0 => (c + 1) :: rest
  | c :: rest, i + 1 => c :: bumpAt rest i

/-- One output bucket of `buildBucketsForRows`. -/
structure PBucket where
  label : String
  pct : ℚ
  count : Nat
deriving DecidableEq

/-- The output of `buildBucketsForRows`. -/
structure BucketsOut where
  data : List PBucket
  totalValid : Nat
deriving DecidableEq

/-- Source `buildBucketsForRows` (lines 479–519): coerce
`FIN_PRICE_UNEDITED`, drop non-coercible values, return an empty data
list when no value is valid, else count each value into its bucket and
attach per-bucket percentages. -/
def buildBucketsForRows (rows : List Rec) : BucketsOut :=
  let ranges := getFixedBucketRanges
  let vals := rows.filterMap (fun r => coercePrice (r "FIN_PRICE_UNEDITED"))
  let totalValid := vals.length
  if totalValid = 0 then { data := [], totalValid := 0 }
  else
    let counts := vals.foldl (fun cs v => bumpAt cs (bucketIdx v))
      (ranges.map (fun _ => 0))
    let data := ranges.zip counts |>.map
      (fun p => PBucket.mk p.1.label ((p.2 : ℚ) / (totalValid : ℚ) * 100) p.2)
    { data := data, totalValid := totalValid }

/-! ## Market solver (`MarketSimulation.jsx` lines 44–129, 799–927)

JS numbers are modelled by `ℝ` and `Math.pow` by `Real.rpow` (written
`^`); every value
of the model is finite, so the `Number.isFinite` guard of `clamp` always
takes the value branch.  `Classical` is opened for the (noncomputable)
order comparisons on `ℝ` that the source branches on. -/

open Classical

/-- The independent variables of the demand/profit model. -/
structure MarketState where
  price : ℝ
  base_price : ℝ
  base_demand : ℝ
  elasticity : ℝ
  vcpu : ℝ
  fixed_cost : ℝ

/-- The derived KPIs returned by `deriveAll`. -/
structure DerivedKPIs where
  price : ℝ
  demand : ℝ
  revenue : ℝ
  total_cost : ℝ
  var_cost_total : ℝ
  profit : ℝ
  margin_pct : ℝ
  unit_margin : ℝ

/-- Source `clamp` (lines 921–923); the non-finite fallback of the source cannot
trigger in the exact model. -/
noncomputable def clampR (v lo hi : ℝ) : ℝ := min hi (max lo v)

/-- Source `deriveAll` (lines 802–821). -/
noncomputable def deriveAll (s : MarketState) : DerivedKPIs :=
  let demand := s.base_demand * (s.price / s.base_price) ^ s.elasticity
  let revenue := s.price * demand
  let var_cost_total := s.vcpu * demand
  let total_cost := s.fixed_cost + var_cost_total
  let profit := revenue - total_cost
  let margin_pct := if revenue > 0 then profit / revenue else 0
  let unit_margin := s.price - s.vcpu
  { price := s.price, demand := demand, revenue := revenue,
    total_cost := total_cost, var_cost_total := var_cost_total,
    profit := profit, margin_pct := margin_pct, unit_margin := unit_margin }

/-- Source `invertElasticityForPrice` (lines 824–832): closed-form inverse of
the power law, with the demand ratio clamped into `[1e-12, 1e12]` and the
result clamped into `[0.01, 1e6]`. -/
noncomputable def invertElasticityForPrice
    (demand base_demand base_price elasticity : ℝ) : ℝ :=
  let ratio := clampR (demand / base_demand) 1e-12 1e12
  let inv := 1 / elasticity
  clampR (base_price * ratio ^ inv) 0.01 1e6

/-- The bracket-expansion loop of `bisectPrice` (lines 893–900), with the
remaining iteration budget (at most 10) as fuel; each pass re-tests the
sign condition on the current endpoints. -/
noncomputable def expandLoop (f : ℝ → ℝ) : Nat → ℝ → ℝ → ℝ × ℝ
  | 0, a, b => (a, b)
  | n + 1, a, b =>
    if f a * f b > 0 then expandLoop f n (max 0.01 (a / 2)) (b * 2)
    else (a, b)

/-- The bisection loop of `bisectPrice` (lines 904–917). -/
noncomputable def bisectLoop (f : ℝ → ℝ) :
    Nat → ℝ → ℝ → ℝ → ℝ → ℝ
  | 0, a, b, _, _ => clampR (0.5 * (a + b)) 0.01 1e6
  | i + 1, a, b, fa, fb =>
    let mid := 0.5 * (a + b)
    let fm := f mid
    if |fm| < 1e-6 then clampR mid 0.01 1e6
    else if fa * fm < 0 then bisectLoop f i a mid fa fm
    else bisectLoop f i mid b fm fb

/-- Source `bisectPrice` (lines 886–918): expand the bracket up to 10 times; if
the root is still not bracketed return the clamped midpoint as best
effort, else bisect. -/
noncomputable def bisectPrice (f : ℝ → ℝ) (lo hi : ℝ) (iters : Nat) : ℝ :=
  let p := expandLoop f 10 lo hi
  let a := p.1
  let b := p.2
  if f a * f b > 0 then clampR ((a + b) / 2) 0.01 1e6
  else bisectLoop f iters a b (f a) (f b)

/-- Source `solvePriceForRevenue` (lines 835–844). -/
noncomputable def solvePriceForRevenue
    (targetRevenue base_demand base_price elasticity : ℝ) : ℝ :=
  bisectPrice
    (fun p => p * base_demand * (p / base_price) ^ elasticity -
      targetRevenue)
    0.01 (base_price * 100) 60

/-- Source `solvePriceForProfit` (lines 847–862). -/
noncomputable def solvePriceForProfit
    (targetProfit base_demand base_price elasticity vcpu fixed_cost : ℝ) :
    ℝ :=
  bisectPrice
    (fun p =>
      let d := base_demand * (p / base_price) ^ elasticity
      p * d - (fixed_cost + vcpu * d) - targetProfit)
    0.01 (base_price * 100) 60

/-- Source `solvePriceForMargin` (lines 865–883). -/
noncomputable def solvePriceForMargin
    (targetMargin base_demand base_price elasticity vcpu fixed_cost : ℝ) :
    ℝ :=
  let m := clampR targetMargin (-5) 5
  bisectPrice
    (fun p =>
      let d := base_demand * (p / base_price) ^ elasticity
      let revenue := p * d
      let total_cost := fixed_cost + vcpu * d
      let profit := revenue - total_cost
      let margin := if revenue > 0 then profit / revenue else -1
      margin - m)
    0.01 (base_price * 200) 70

/-- Source `handleEdit` (lines 44–129) after `toNumberSafe` has produced the
numeric `value`: editing an independent variable clamps it in place;
editing a derived KPI solves back for `price` and changes nothing else;
an unknown field leaves the state unchanged. -/
noncomputable def handleEdit (s : MarketState) (field : String) (value : ℝ) :
    MarketState :=
  if field = "price" then { s with price := clampR value 0.01 1e6 }
  else if field = "elasticity" then
    { s with elasticity := clampR value (-5) (-0.05) }
  else if field = "base_price" then
    { s with base_price := clampR value 0.01 1e6 }
  else if field = "base_demand" then
    { s with base_demand := clampR value 1 1e9 }
  else if field = "vcpu" then { s with vcpu := clampR value 0 1e6 }
  else if field = "fixed_cost" then
    { s with fixed_cost := clampR value 0 1e12 }
  else if field = "demand" then
    { s with price := (invertElasticityForPrice (clampR value 1 1e12)
        s.base_demand s.base_price s.elasticity) }
  else if field = "revenue" then
    { s with price := (solvePriceForRevenue (clampR value 0 1e15)
        s.base_demand s.base_price s.elasticity) }
  else if field = "profit" then
    { s with price := (solvePriceForProfit value
        s.base_demand s.base_price s.elasticity s.vcpu s.fixed_cost) }
  else if field = "margin_pct" then
    { s with price := (solvePriceForMargin (clampR (value / 100) (-10) 10)
        s.base_demand s.base_price s.elasticity s.vcpu s.fixed_cost) }
  else s

/-! ## Theorems -/

lemma natToChars_ne_nil (n : Nat) : natToChars n ≠ [] := by
  intro h
  rw [natToChars, natToCharsAux] at h
  revert h
  split <;> simp

lemma numToString_ne_empty (q : ℚ) : numToString q ≠ "" := by
  intro h
  have hd : (numToString q).data = [] := by rw [h]
  unfold numToString at hd
  simp only [String.data_append] at hd
  rcases List.append_eq_nil.mp hd with ⟨hd1, _⟩
  rcases List.append_eq_nil.mp hd1 with ⟨_, hd3⟩
  exact natToChars_ne_nil _ hd3

lemma jsToString_ne_empty_of_truthy (v : JSValue) (h : jsTruthy v = true) :
    jsToString v ≠ "" := by
  cases v with
  | undef => simp [jsTruthy] at h
  | null => simp [jsTruthy] at h
  | nan => simp [jsTruthy] at h
  | bool b =>
    cases b with
    | false => simp [jsTruthy] at h
    | true => simp [jsToString]
  | num q => exact numToString_ne_empty q
  | str s => simpa [jsTruthy] using h

/-- C5.  The agree decision is made on the normalized label (trim,
lowercase, whitespace runs collapsed), under the policy selected by the
field name: exactly `OL_MODEL_GRP` agrees iff the normalized label is
"loyal"; a field matching the prefix `STATE_` case-insensitively agrees
iff it is "strongly agree" or "somewhat agree"; every other field also
accepts "agree". -/
theorem agree_policy_dispatch (varName label : String) :
    isTopNAgree label (agreePolicyFor varName) = true ↔
      (if varName = "OL_MODEL_GRP" then normalizeLabel label = "loyal"
       else if varName.toLower.startsWith "state_" then
         normalizeLabel label = "strongly agree" ∨
           normalizeLabel label = "somewhat agree"
       else
         normalizeLabel label = "strongly agree" ∨
           normalizeLabel label = "agree" ∨
           normalizeLabel label = "somewhat agree") := by
  by_cases h1 : varName = "OL_MODEL_GRP" <;>
    by_cases h2 : varName.toLower.startsWith "state_" <;>
      simp [isTopNAgree, agreePolicyFor, h1, h2, AGREE_TOP2, AGREE_TOP3,
        List.elem_eq_mem]

/-- C7.  An empty model selection is "no filter": `baseByModel` returns
the whole row list unchanged. -/
theorem baseByModel_empty_selection (rows : List NRow) :
    baseByModel rows [] = rows := by
  unfold baseByModel
  simp only [List.isEmpty_nil, if_pos]
  apply List.filter_eq_self.mpr
  intro r hr
  have hmem : r.model ∈ allModels rows := by
    unfold allModels
    rw [List.Perm.mem_iff (List.perm_insertionSort _ _)]
    exact List.mem_dedup.mpr (List.mem_map_of_mem _ hr)
  simpa using hmem

/-- C8.  The row normalizer is total (it is a `filterMap`, dropping
malformed records whole); a record survives exactly when its resolved
model value is truthy (for the string-or-absent model fields of the data
this is non-emptiness) and its three numeric fields coerce to finite
numbers; and every surviving row carries a non-empty model string (its
numeric fields are finite by construction, being values of `ℚ`). -/
theorem rowsNormalize_drop_iff :
    (∀ dps : List Rec, rowsNormalize dps = dps.filterMap normalizeOne) ∧
    (∀ r : Rec,
      (normalizeOne r).isSome =
        (jsTruthy (resolveModelVal r) && (jsNumberOf (r "emb_x")).isSome &&
          (jsNumberOf (r "emb_y")).isSome &&
          (jsNumberOf (r "cluster")).isSome)) ∧
    (∀ dps : List Rec,
      (rowsNormalize dps).all (fun o => o.model ≠ "") = true) := by
  refine ⟨fun _ => rfl, fun r => ?_, fun dps => ?_⟩
  · unfold normalizeOne
    rcases hx : jsNumberOf (r "emb_x") with _ | x <;>
      rcases hy : jsNumberOf (r "emb_y") with _ | y <;>
        rcases hc : jsNumberOf (r "cluster") with _ | c <;>
          rcases ht : jsTruthy (resolveModelVal r) <;> simp [hx, hy, hc, ht]
  · rw [List.all_eq_true]
    intro o ho
    simp only [decide_eq_true_eq]
    rcases List.mem_filterMap.mp ho with ⟨r, -, hr⟩
    unfold normalizeOne at hr
    split at hr
    · split at hr
      · cases hr
        simpa using jsToString_ne_empty_of_truthy _ (by assumption)
      · exact absurd hr (by simp)
    · exact absurd hr (by simp)

lemma agreeStats_agree_le_valid (rows : List Rec) (varName : String)
    (cm : CodeMap) :
    (agreeStats rows varName cm).1 ≤ (agreeStats rows varName cm).2.1 := by
  induction rows with
  | nil => simp [agreeStats]
  | cons r rest ih =>
    rcases hs : agreeStats rest varName cm with ⟨a, v, m⟩
    rw [hs] at ih
    dsimp only at ih
    simp only [agreeStats, hs]
    rcases hres : resolveMappedLabel r varName cm with _ | lab <;>
      dsimp only
    · exact ih
    · split
      · exact ih
      · split <;> dsimp only <;> omega

lemma agreeStats_valid_add_missing (rows : List Rec) (varName : String)
    (cm : CodeMap) :
    (agreeStats rows varName cm).2.1 + (agreeStats rows varName cm).2.2 =
      rows.length := by
  induction rows with
  | nil => simp [agreeStats]
  | cons r rest ih =>
    rcases hs : agreeStats rest varName cm with ⟨a, v, m⟩
    rw [hs] at ih
    dsimp only at ih
    simp only [agreeStats, hs, List.length_cons]
    rcases hres : resolveMappedLabel r varName cm with _ | lab <;>
      dsimp only
    · show v + (m + 1) = rest.length + 1
      omega
    · split
      · show v + (m + 1) = rest.length + 1
        omega
      · split
        · show (v + 1) + m = rest.length + 1
          omega
        · show (v + 1) + m = rest.length + 1
          omega

/-- C4.  `percentAgreeMappedPolicy` never returns a negative value or one
above 100 (for either denominator policy), and under the default
include-missing policy it returns NaN (`none`) exactly when the
denominator — the count of valid rows plus the count of missing rows —
is zero. -/
theorem percentAgree_range_and_nan (rows : List Rec) (varName : String)
    (cm : CodeMap) :
    (∀ flag : Bool,
      (percentAgreeMappedPolicy rows varName cm flag).elim True
        (fun q => 0 ≤ q ∧ q ≤ 100)) ∧
    (percentAgreeMappedPolicy rows varName cm true = none ↔
      (agreeStats rows varName cm).2.1 + (agreeStats rows varName cm).2.2
        = 0) := by
  have hle := agreeStats_agree_le_valid rows varName cm
  rcases hs : agreeStats rows varName cm with ⟨a, v, m⟩
  rw [hs] at hle
  dsimp only at hle
  have key : ∀ d : ℕ, a ≤ d →
      (if 0 < d then some ((a : ℚ) / (d : ℚ) * 100) else none).elim True
        (fun q => 0 ≤ q ∧ q ≤ 100) := by
    intro d hd
    split
    · rename_i hpos
      refine ⟨by positivity, ?_⟩
      have hdpos : (0 : ℚ) < (d : ℚ) := by exact_mod_cast hpos
      have h1 : (a : ℚ) / (d : ℚ) ≤ 1 := by
        rw [div_le_one hdpos]
        exact_mod_cast hd
      calc (a : ℚ) / (d : ℚ) * 100 ≤ 1 * 100 :=
            mul_le_mul_of_nonneg_right h1 (by norm_num)
        _ = 100 := by norm_num
    · exact trivial
  constructor
  · intro flag
    unfold percentAgreeMappedPolicy
    rw [hs]
    dsimp only
    cases flag with
    | true => exact key (v + m) (by omega)
    | false => exact key v hle
  · unfold percentAgreeMappedPolicy
    rw [hs]
    dsimp only
    rw [if_pos rfl]
    constructor
    · intro hco
      by_contra hne
      rw [if_pos (by omega : 0 < v + m)] at hco
      exact Option.noConfusion hco
    · intro hzero
      rw [if_neg (by omega)]

lemma bumpLabel_sum (cs : List (String × Nat)) (l : String) :
    ((bumpLabel cs l).map Prod.snd).sum = (cs.map Prod.snd).sum + 1 := by
  induction cs with
  | nil => simp [bumpLabel]
  | cons p rest ih =>
    rcases p with ⟨k, c⟩
    by_cases hk : k = l <;> simp [bumpLabel, hk, ih] <;> omega

lemma catStep_sum (field : String) (cm : CodeMap)
    (acc : List (String × Nat) × Nat × Nat) (r : Rec) :
    (((catStep field cm acc r).1.map Prod.snd).sum + acc.2.1 =
      ((acc.1.map Prod.snd).sum) + (catStep field cm acc r).2.1) := by
  rcases acc with ⟨counts, valid, missing⟩
  unfold catStep
  dsimp only
  split
  · dsimp only
  · dsimp only
    rw [bumpLabel_sum]
    omega

lemma catFold_sum (field : String) (cm : CodeMap) (rows : List Rec) :
    ∀ acc : List (String × Nat) × Nat × Nat,
      ((rows.foldl (catStep field cm) acc).1.map Prod.snd).sum + acc.2.1 =
        ((acc.1.map Prod.snd).sum) +
          (rows.foldl (catStep field cm) acc).2.1 := by
  induction rows with
  | nil => intro acc; rfl
  | cons r rest ih =>
    intro acc
    simp only [List.foldl_cons]
    have h1 := ih (catStep field cm acc r)
    have h2 := catStep_sum field cm acc r
    omega

lemma catCounts_sum (rows : List Rec) (field : String) (cm : CodeMap) :
    ((catCounts rows field cm).1.map Prod.snd).sum =
      (catCounts rows field cm).2.1 := by
  have := catFold_sum field cm rows ([], 0, 0)
  simpa [catCounts] using this

lemma items_pct_sum (cs : List (String × Nat)) (ft : ℚ) :
    ((cs.map (fun p => SItem.mk p.1 p.2 ((p.2 : ℚ) / ft * 100))).map
      SItem.pct).sum = ((cs.map Prod.snd).sum : ℚ) / ft * 100 := by
  induction cs with
  | nil => simp
  | cons p rest ih =>
    simp only [List.map_cons, List.sum_cons, ih]
    push_cast
    ring

lemma foldl_add_pct (l : List SItem) (init : ℚ) :
    l.foldl (fun a b => a + b.pct) init = init + (l.map SItem.pct).sum := by
  induction l generalizing init with
  | nil => simp
  | cons x xs ih =>
    simp only [List.foldl_cons, List.map_cons, List.sum_cons, ih]
    ring

lemma categoricalOf_sum (rows : List Rec) (field : String) (cm : CodeMap)
    (items : List SItem) (total : Nat)
    (h : categoricalOf rows field cm = some (.categorical items total)) :
    (items.map SItem.pct).sum = 100 ∧ 0 < total := by
  unfold categoricalOf at h
  rcases hc : catCounts rows field cm with ⟨counts, valid, missing⟩
  rw [hc] at h
  dsimp only at h
  split at h
  · exact absurd h (by simp)
  · rename_i hne
    have hS : (counts.map Prod.snd).sum = valid := by
      have := catCounts_sum rows field cm
      rw [hc] at this
      exact this
    set ft : ℚ := ((valid + missing : ℕ) : ℚ) with hft
    have hftne : ft ≠ 0 := by
      rw [hft]
      exact_mod_cast hne
    set items0 := counts.map
      (fun p => SItem.mk p.1 p.2 ((p.2 : ℚ) / ft * 100)) with hi0
    set sorted := List.insertionSort (fun a b => b.count ≤ a.count) items0
      with hsorted
    have hsortsum : (sorted.map SItem.pct).sum = (items0.map SItem.pct).sum :=
      (List.Perm.map SItem.pct
        (List.perm_insertionSort (fun a b => b.count ≤ a.count) items0)).sum_eq
    have hsum0 : (items0.map SItem.pct).sum = ((valid : ℚ)) / ft * 100 := by
      rw [hi0, items_pct_sum, hS]
    set items1 := (if 0 < missing then
        sorted ++ [SItem.mk "Unknown" missing ((missing : ℚ) / ft * 100)]
      else sorted) with hi1
    have hsum1 : (items1.map SItem.pct).sum = 100 := by
      rw [hi1]
      split
      · rename_i hmpos
        simp only [List.map_append, List.sum_append, List.map_cons,
          List.map_nil, List.sum_cons, List.sum_nil]
        rw [hsortsum, hsum0]
        rw [hft]
        push_cast
        field_simp
        ring
      · rename_i hmzero
        have hm0 : missing = 0 := by omega
        rw [hsortsum, hsum0, hft, hm0]
        have hvne : (valid : ℚ) ≠ 0 := by
          exact_mod_cast (by omega : valid ≠ 0)
        field_simp
    have hfold : (items1.foldl (fun a b => a + b.pct) (0 : ℚ)) = 100 := by
      rw [foldl_add_pct, hsum1]
      ring
    rw [hfold] at h
    have hcorr : ¬ ((0.1 : ℚ) < jsAbs ((100 : ℚ) - 100) ∧
        0 < items1.length) := by
      intro hcon
      rcases hcon with ⟨habs, -⟩
      norm_num [jsAbs] at habs
    rw [if_neg hcorr] at h
    rcases Option.some_injective _ h with heq
    injection heq with h1 h2
    constructor
    · rw [← h1]
      exact hsum1
    · omega

/-- C1.  Every categorical summary section emitted by `demoSummary` has
`total > 0` and its item percentages (the synthetic "Unknown" item
included) sum to exactly 100; the last-item correction absorbs any
deviation beyond 0.1, and in exact arithmetic the uncorrected sum is
already exactly 100. -/
theorem demoSummary_categorical_pct_sum (b : Bool) (rows : List Rec)
    (field : String) (cm : CodeMap) (items : List SItem) (total : Nat)
    (h : demoSummarizeField b rows field cm =
      some (.categorical items total)) :
    (items.map SItem.pct).sum = 100 ∧ 0 < total := by
  unfold demoSummarizeField at h
  split at h
  · split at h
    · exact absurd h (by simp)
    · exact categoricalOf_sum rows field cm items total h
  · exact categoricalOf_sum rows field cm items total h

/-- Witness for C1 on the spec's own scenario: one row with `AGE`
"25-34" and one row missing it give a 50/50 categorical section whose
percentages sum to 100. -/
theorem demoSummary_categorical_pct_sum_witness :
    (([SItem.mk "25-34" 1 50, SItem.mk "Unknown" 1 50].map
      SItem.pct).sum = 100) ∧ 0 < 2 :=
  demoSummary_categorical_pct_sum false
    [recOf [("AGE", .str "25-34")], recOf []] "AGE" []
    [SItem.mk "25-34" 1 50, SItem.mk "Unknown" 1 50] 2
    (by norm_num +decide [demoSummarizeField, categoricalOf, catCounts,
      catStep, List.foldl, resolveLabelInline, cmFind, bumpLabel, jsAbs,
      setLastPct, jsTrim, jsTrimChars, isJsSpace, jsToString, jsParseNumber,
      parseSigned, parseUnsigned, parseExpPart, digitsVal, recOf,
      List.insertionSort, List.orderedInsert, foldl_add_pct])

lemma bumpAt_length (cs : List Nat) (i : Nat) :
    (bumpAt cs i).length = cs.length := by
  induction cs generalizing i with
  | nil => simp [bumpAt]
  | cons c rest ih =>
    cases i with
    | zero => simp [bumpAt]
    | succ j => simp [bumpAt, ih]

lemma bumpAt_sum (cs : List Nat) (i : Nat) (h : i < cs.length) :
    (bumpAt cs i).sum = cs.sum + 1 := by
  induction cs generalizing i with
  | nil => simp at h
  | cons c rest ih =>
    cases i with
    | zero => simp [bumpAt]; omega
    | succ j =>
      simp only [bumpAt, List.sum_cons]
      rw [ih j (by simpa using h)]
      omega

lemma bucketIdx_lt (v : ℚ) : bucketIdx v < 18 := by
  unfold bucketIdx
  split
  · omega
  · split
    · omega
    · have h1 : max 0 (min (⌊(v - BUCKET_MIN) / BUCKET_STEP⌋) 15) ≤ 15 := by
        apply max_le
        · omega
        · exact min_le_right _ _
      omega

lemma getFixedBucketRanges_length : getFixedBucketRanges.length = 18 := by
  rfl

lemma bucketFold_length (vals : List ℚ) (cs : List Nat) :
    (vals.foldl (fun cs v => bumpAt cs (bucketIdx v)) cs).length =
      cs.length := by
  induction vals generalizing cs with
  | nil => rfl
  | cons v rest ih =>
    simp only [List.foldl_cons]
    rw [ih, bumpAt_length]

lemma bucketFold_sum (vals : List ℚ) (cs : List Nat) (h : cs.length = 18) :
    (vals.foldl (fun cs v => bumpAt cs (bucketIdx v)) cs).sum =
      cs.sum + vals.length := by
  induction vals generalizing cs with
  | nil => simp
  | cons v rest ih =>
    simp only [List.foldl_cons, List.length_cons]
    rw [ih _ (by rw [bumpAt_length]; exact h)]
    rw [bumpAt_sum _ _ (by rw [h]; exact bucketIdx_lt v)]
    omega

/-- C10.  Every coercible price value lands in exactly one bucket: the
bucket counts of `buildBucketsForRows` always sum to `totalValid`
(non-coercible values contribute to no bucket); in particular this holds
whenever `totalValid > 0`. -/
theorem buildBuckets_counts_sum (rows : List Rec) :
    ((buildBucketsForRows rows).data.map PBucket.count).sum =
      (buildBucketsForRows rows).totalValid := by
  unfold buildBucketsForRows
  simp only []
  split
  · simp
  · simp only [List.map_map]
    set vals := rows.filterMap (fun r => coercePrice (r "FIN_PRICE_UNEDITED"))
      with hv
    set counts := vals.foldl (fun cs v => bumpAt cs (bucketIdx v))
      (getFixedBucketRanges.map (fun _ => 0)) with hc
    have hclen : counts.length = 18 := by
      rw [hc, bucketFold_length]
      simp [getFixedBucketRanges_length]
    have hmap : ((getFixedBucketRanges.zip counts).map
        (PBucket.count ∘ fun p =>
          PBucket.mk p.1.label ((p.2 : ℚ) / (vals.length : ℚ) * 100) p.2)) =
        counts := by
      have : (PBucket.count ∘ fun p : BRange × Nat =>
          PBucket.mk p.1.label ((p.2 : ℚ) / (vals.length : ℚ) * 100) p.2) =
          Prod.snd := by
        funext p
        rfl
      rw [this]
      exact List.map_snd_zip _ _
        (by rw [hclen, getFixedBucketRanges_length])
    rw [hmap, hc, bucketFold_sum _ _ (by simp [getFixedBucketRanges_length])]
    simp

set_option maxRecDepth 8000 in
set_option maxHeartbeats 2000000 in
/-- C6.  The price bucketizer uses the static bin boundaries (one open
bucket below $30k, sixteen $5k-wide buckets to $110k, one open $110k+
bucket), and on the spec scenario rows `"$29,999"` and `"$35,200"` (after
stripping `$` and `,`) it reports count 1 / pct 50 in "Under $30k",
count 1 / pct 50 in "$35k to $39.9k", and `totalValid = 2`. -/
theorem buildBuckets_static_bins_scenario :
    getFixedBucketRanges =
      [BRange.mk none (some 30000) "Under $30k",
       BRange.mk (some 30000) (some 35000) "$30k to $34.9k",
       BRange.mk (some 35000) (some 40000) "$35k to $39.9k",
       BRange.mk (some 40000) (some 45000) "$40k to $44.9k",
       BRange.mk (some 45000) (some 50000) "$45k to $49.9k",
       BRange.mk (some 50000) (some 55000) "$50k to $54.9k",
       BRange.mk (some 55000) (some 60000) "$55k to $59.9k",
       BRange.mk (some 60000) (some 65000) "$60k to $64.9k",
       BRange.mk (some 65000) (some 70000) "$65k to $69.9k",
       BRange.mk (some 70000) (some 75000) "$70k to $74.9k",
       BRange.mk (some 75000) (some 80000) "$75k to $79.9k",
       BRange.mk (some 80000) (some 85000) "$80k to $84.9k",
       BRange.mk (some 85000) (some 90000) "$85k to $89.9k",
       BRange.mk (some 90000) (some 95000) "$90k to $94.9k",
       BRange.mk (some 95000) (some 100000) "$95k to $99.9k",
       BRange.mk (some 100000) (some 105000) "$100k to $104.9k",
       BRange.mk (some 105000) (some 110000) "$105k to $109.9k",
       BRange.mk (some 110000) none "$110k+"] ∧
    buildBucketsForRows
        [recOf [("FIN_PRICE_UNEDITED", .str "$29,999")],
         recOf [("FIN_PRICE_UNEDITED", .str "$35,200")]] =
      { data :=
        [PBucket.mk "Under $30k" 50 1,
         PBucket.mk "$30k to $34.9k" 0 0,
         PBucket.mk "$35k to $39.9k" 50 1,
         PBucket.mk "$40k to $44.9k" 0 0,
         PBucket.mk "$45k to $49.9k" 0 0,
         PBucket.mk "$50k to $54.9k" 0 0,
         PBucket.mk "$55k to $59.9k" 0 0,
         PBucket.mk "$60k to $64.9k" 0 0,
         PBucket.mk "$65k to $69.9k" 0 0,
         PBucket.mk "$70k to $74.9k" 0 0,
         PBucket.mk "$75k to $79.9k" 0 0,
         PBucket.mk "$80k to $84.9k" 0 0,
         PBucket.mk "$85k to $89.9k" 0 0,
         PBucket.mk "$90k to $94.9k" 0 0,
         PBucket.mk "$95k to $99.9k" 0 0,
         PBucket.mk "$100k to $104.9k" 0 0,
         PBucket.mk "$105k to $109.9k" 0 0,
         PBucket.mk "$110k+" 0 0],
        totalValid := 2 } := by
  have hranges : getFixedBucketRanges =
      [BRange.mk none (some 30000) "Under $30k",
       BRange.mk (some 30000) (some 35000) "$30k to $34.9k",
       BRange.mk (some 35000) (some 40000) "$35k to $39.9k",
       BRange.mk (some 40000) (some 45000) "$40k to $44.9k",
       BRange.mk (some 45000) (some 50000) "$45k to $49.9k",
       BRange.mk (some 50000) (some 55000) "$50k to $54.9k",
       BRange.mk (some 55000) (some 60000) "$55k to $59.9k",
       BRange.mk (some 60000) (some 65000) "$60k to $64.9k",
       BRange.mk (some 65000) (some 70000) "$65k to $69.9k",
       BRange.mk (some 70000) (some 75000) "$70k to $74.9k",
       BRange.mk (some 75000) (some 80000) "$75k to $79.9k",
       BRange.mk (some 80000) (some 85000) "$80k to $84.9k",
       BRange.mk (some 85000) (some 90000) "$85k to $89.9k",
       BRange.mk (some 90000) (some 95000) "$90k to $94.9k",
       BRange.mk (some 95000) (some 100000) "$95k to $99.9k",
       BRange.mk (some 100000) (some 105000) "$100k to $104.9k",
       BRange.mk (some 105000) (some 110000) "$105k to $109.9k",
       BRange.mk (some 110000) none "$110k+"] := by
    norm_num +decide [getFixedBucketRanges, bucketLabel, fmtK, fmtKDec,
      BUCKET_MIN, BUCKET_STEP, OVER_MIN, List.range_succ]
  refine ⟨hranges, ?_⟩
  have h1 : coercePrice
      (recOf [("FIN_PRICE_UNEDITED", .str "$29,999")] "FIN_PRICE_UNEDITED") =
      some 29999 := by
    norm_num +decide [recOf, coercePrice, jsParseNumber, parseSigned,
      parseUnsigned, parseExpPart, digitsVal, jsTrimChars, isJsSpace]
  have h2 : coercePrice
      (recOf [("FIN_PRICE_UNEDITED", .str "$35,200")] "FIN_PRICE_UNEDITED") =
      some 35200 := by
    norm_num +decide [recOf, coercePrice, jsParseNumber, parseSigned,
      parseUnsigned, parseExpPart, digitsVal, jsTrimChars, isJsSpace]
  have hvals : List.filterMap (fun r => coercePrice (r "FIN_PRICE_UNEDITED"))
      [recOf [("FIN_PRICE_UNEDITED", .str "$29,999")],
       recOf [("FIN_PRICE_UNEDITED", .str "$35,200")]] =
      [(29999 : ℚ), 35200] := by
    rw [List.filterMap_cons, List.filterMap_cons, List.filterMap_nil]
    simp only [h1, h2]
  have hidx1 : bucketIdx 29999 = 0 := by
    norm_num [bucketIdx, BUCKET_MIN, BUCKET_STEP, OVER_MIN]
  have hidx2 : bucketIdx 35200 = 2 := by
    norm_num [bucketIdx, BUCKET_MIN, BUCKET_STEP, OVER_MIN]
  norm_num +decide [buildBucketsForRows, hvals, hranges, hidx1, hidx2, bumpAt]

/-- C2.  `deriveAll` computes `demand = base_demand *
(price/base_price)^elasticity`, `revenue = price * demand`,
`total_cost = fixed_cost + vcpu * demand`, `profit = revenue -
total_cost`, `margin_pct = profit/revenue` when `revenue > 0` and 0
otherwise, and `unit_margin = price - vcpu`; on the baseline state it
returns demand 10000, revenue 500000, total_cost 320000, profit 180000
and margin_pct 0.36. -/
theorem deriveAll_formulas_and_baseline :
    (∀ s : MarketState,
      (deriveAll s).demand =
        s.base_demand * (s.price / s.base_price) ^ s.elasticity ∧
      (deriveAll s).revenue = s.price * (deriveAll s).demand ∧
      (deriveAll s).total_cost =
        s.fixed_cost + s.vcpu * (deriveAll s).demand ∧
      (deriveAll s).profit = (deriveAll s).revenue - (deriveAll s).total_cost ∧
      (deriveAll s).margin_pct =
        (if (deriveAll s).revenue > 0 then
          (deriveAll s).profit / (deriveAll s).revenue
        else 0) ∧
      (deriveAll s).unit_margin = s.price - s.vcpu) ∧
    ((deriveAll ⟨50, 50, 10000, -1.2, 20, 120000⟩).demand = 10000 ∧
     (deriveAll ⟨50, 50, 10000, -1.2, 20, 120000⟩).revenue = 500000 ∧
     (deriveAll ⟨50, 50, 10000, -1.2, 20, 120000⟩).total_cost = 320000 ∧
     (deriveAll ⟨50, 50, 10000, -1.2, 20, 120000⟩).profit = 180000 ∧
     (deriveAll ⟨50, 50, 10000, -1.2, 20, 120000⟩).margin_pct = 0.36) := by
  have hpow : ((50 : ℝ) / 50) ^ (-1.2 : ℝ) = 1 := by
    rw [div_self (by norm_num : (50 : ℝ) ≠ 0)]
    exact Real.one_rpow _
  refine ⟨fun s => ⟨rfl, rfl, rfl, rfl, rfl, rfl⟩, ?_, ?_, ?_, ?_, ?_⟩
  · show (10000 : ℝ) * ((50 : ℝ) / 50) ^ (-1.2 : ℝ) = 10000
    rw [hpow]
    norm_num
  · show (50 : ℝ) * (10000 * ((50 : ℝ) / 50) ^ (-1.2 : ℝ)) = 500000
    rw [hpow]
    norm_num
  · show (120000 : ℝ) + 20 * (10000 * ((50 : ℝ) / 50) ^ (-1.2 : ℝ)) = 320000
    rw [hpow]
    norm_num
  · show (50 : ℝ) * (10000 * ((50 : ℝ) / 50) ^ (-1.2 : ℝ)) -
      (120000 + 20 * (10000 * ((50 : ℝ) / 50) ^ (-1.2 : ℝ))) = 180000
    rw [hpow]
    norm_num
  · show (if (50 : ℝ) * (10000 * ((50 : ℝ) / 50) ^ (-1.2 : ℝ)) > 0 then
        ((50 : ℝ) * (10000 * ((50 : ℝ) / 50) ^ (-1.2 : ℝ)) -
          (120000 + 20 * (10000 * ((50 : ℝ) / 50) ^ (-1.2 : ℝ)))) /
          ((50 : ℝ) * (10000 * ((50 : ℝ) / 50) ^ (-1.2 : ℝ)))
      else 0) = 0.36
    rw [hpow]
    rw [if_pos (by norm_num)]
    norm_num

set_option maxHeartbeats 2000000 in
/-- C9.  Editing a derived KPI (`demand`, `revenue`, `profit`,
`margin_pct`) through `handleEdit` changes only `price`: `base_price`,
`base_demand`, `elasticity`, `vcpu` and `fixed_cost` are untouched; and
every `handleEdit` operation preserves `elasticity < 0` (the elasticity
edit clamps into `[-5, -0.05]`, every other edit leaves it unchanged). -/
theorem handleEdit_frame_and_elasticity (s : MarketState) (field : String)
    (value : ℝ) :
    (field = "demand" ∨ field = "revenue" ∨ field = "profit" ∨
        field = "margin_pct" →
      (handleEdit s field value).base_price = s.base_price ∧
      (handleEdit s field value).base_demand = s.base_demand ∧
      (handleEdit s field value).elasticity = s.elasticity ∧
      (handleEdit s field value).vcpu = s.vcpu ∧
      (handleEdit s field value).fixed_cost = s.fixed_cost) ∧
    (s.elasticity < 0 → (handleEdit s field value).elasticity < 0) := by
  constructor
  · rintro (rfl | rfl | rfl | rfl) <;> simp [handleEdit]
  · intro he
    unfold handleEdit
    split_ifs <;>
      first
        | exact he
        | (unfold clampR
           exact lt_of_le_of_lt (min_le_left _ _) (by norm_num))

/-- C3 (amended).  The round-trip
`invertElasticityForPrice (deriveAll s).demand … = s.price` holds exactly
(in exact real arithmetic) for prices in `[0.01, 1e6]` provided the
demand ratio `(price/base_price)^elasticity` lies inside the inverter's
ratio clamp `[1e-12, 1e12]`; outside that window the clamp breaks the
round-trip (see the counterexample). -/
theorem invert_roundtrip_in_clamp (s : MarketState)
    (hbp : 0 < s.base_price) (hbd : 0 < s.base_demand)
    (he : s.elasticity ≠ 0)
    (hP : 0.01 ≤ s.price ∧ s.price ≤ 1e6)
    (hr1 : 1e-12 ≤ (s.price / s.base_price) ^ s.elasticity)
    (hr2 : (s.price / s.base_price) ^ s.elasticity ≤ 1e12) :
    invertElasticityForPrice (deriveAll s).demand s.base_demand s.base_price
      s.elasticity = s.price := by
  unfold invertElasticityForPrice deriveAll
  dsimp only
  set X : ℝ := (s.price / s.base_price) ^ s.elasticity with hX
  have hratio : s.base_demand * X / s.base_demand = X := by
    field_simp
  rw [hratio]
  have hclamp1 : clampR X 1e-12 1e12 = X := by
    unfold clampR
    rw [max_eq_right hr1, min_eq_right hr2]
  rw [hclamp1]
  have hxpos : (0 : ℝ) ≤ s.price / s.base_price :=
    div_nonneg (le_trans (by norm_num) hP.1) hbp.le
  have hpow : X ^ (1 / s.elasticity) = s.price / s.base_price := by
    rw [hX, ← Real.rpow_mul hxpos, mul_one_div, div_self he, Real.rpow_one]
  rw [hpow]
  have hmul : s.base_price * (s.price / s.base_price) = s.price := by
    field_simp
  rw [hmul]
  unfold clampR
  rw [max_eq_right hP.1, min_eq_right hP.2]

/-- Witness for the amended C3 at the baseline state. -/
theorem invert_roundtrip_in_clamp_witness :
    invertElasticityForPrice
      (deriveAll ⟨50, 50, 10000, -1.2, 20, 120000⟩).demand 10000 50 (-1.2) =
      50 := by
  have hpow1 : ((50 : ℝ) / 50) ^ (-1.2 : ℝ) = 1 := by
    rw [div_self (by norm_num : (50 : ℝ) ≠ 0)]
    exact Real.one_rpow _
  exact invert_roundtrip_in_clamp ⟨50, 50, 10000, -1.2, 20, 120000⟩
    (by norm_num) (by norm_num) (by norm_num) ⟨by norm_num, by norm_num⟩
    (by show (1e-12 : ℝ) ≤ ((50 : ℝ) / 50) ^ (-1.2 : ℝ)
        rw [hpow1]
        norm_num)
    (by show ((50 : ℝ) / 50) ^ (-1.2 : ℝ) ≤ (1e12 : ℝ)
        rw [hpow1]
        norm_num)

/-- C3 counterexample.  At the in-domain state `price = 0.01`,
`base_price = 1e6`, `base_demand = 1`, `elasticity = -4` (elasticity in
its clamped domain `[-5, -0.05]`, prices in `[0.01, 1e6]`), the demand
ratio is `1e32`, the inverter clamps it to `1e12`, and the round-trip
returns 1000 instead of 0.01 — off by more than 999, far beyond any
floating tolerance. -/
theorem invert_roundtrip_cex :
    invertElasticityForPrice
      (deriveAll ⟨0.01, 1e6, 1, -4, 20, 120000⟩).demand 1 1e6 (-4) = 1000 ∧
    (999 : ℝ) < |1000 - (0.01 : ℝ)| := by
  constructor
  · unfold invertElasticityForPrice deriveAll
    dsimp only
    have h1 : ((⟨0.01, 1e6, 1, -4, 20, 120000⟩ : MarketState).price /
        (⟨0.01, 1e6, 1, -4, 20, 120000⟩ : MarketState).base_price) =
        (1e-8 : ℝ) := by
      show ((0.01 : ℝ) / 1e6) = 1e-8
      norm_num
    rw [h1]
    have h2 : ((1e-8 : ℝ)) ^ ((-4 : ℝ)) = 1e32 := by
      rw [show ((-4 : ℝ)) = ((-4 : ℤ) : ℝ) by norm_num, Real.rpow_intCast]
      norm_num
    rw [h2]
    have h3 : clampR ((1 : ℝ) * 1e32 / 1) 1e-12 1e12 = 1e12 := by
      unfold clampR
      rw [max_eq_right (by norm_num), min_eq_left (by norm_num)]
    rw [h3]
    have h4 : ((1e12 : ℝ)) ^ ((1 : ℝ) / (-4)) = 1 / 1000 := by
      have h5 : ((1e12 : ℝ)) = (1000 : ℝ) ^ ((4 : ℕ) : ℝ) := by
        rw [Real.rpow_natCast]
        norm_num
      rw [h5, ← Real.rpow_mul (by norm_num : (0 : ℝ) ≤ 1000)]
      rw [show (((4 : ℕ) : ℝ) * ((1 : ℝ) / (-4))) = ((-1 : ℤ) : ℝ) by
        norm_num, Real.rpow_intCast]
      norm_num
    rw [h4]
    unfold clampR
    rw [max_eq_right (by norm_num), min_eq_right (by norm_num)]
    norm_num
  · rw [show (1000 : ℝ) - 0.01 = 999.99 by norm_num]
    rw [abs_of_pos (by norm_num)]
    norm_num

/-- Witness for C9 at the baseline state with a demand edit. -/
theorem handleEdit_frame_and_elasticity_witness :
    ((handleEdit ⟨50, 50, 10000, -1.2, 20, 120000⟩ "demand"
        20000).base_price =
      (⟨50, 50, 10000, -1.2, 20, 120000⟩ : MarketState).base_price ∧
     (handleEdit ⟨50, 50, 10000, -1.2, 20, 120000⟩ "demand"
        20000).base_demand =
      (⟨50, 50, 10000, -1.2, 20, 120000⟩ : MarketState).base_demand ∧
     (handleEdit ⟨50, 50, 10000, -1.2, 20, 120000⟩ "demand"
        20000).elasticity =
      (⟨50, 50, 10000, -1.2, 20, 120000⟩ : MarketState).elasticity ∧
     (handleEdit ⟨50, 50, 10000, -1.2, 20, 120000⟩ "demand" 20000).vcpu =
      (⟨50, 50, 10000, -1.2, 20, 120000⟩ : MarketState).vcpu ∧
     (handleEdit ⟨50, 50, 10000, -1.2, 20, 120000⟩ "demand"
        20000).fixed_cost =
      (⟨50, 50, 10000, -1.2, 20, 120000⟩ : MarketState).fixed_cost) ∧
    (handleEdit ⟨50, 50, 10000, -1.2, 20, 120000⟩ "demand"
      20000).elasticity < 0 :=
  ⟨(handleEdit_frame_and_elasticity ⟨50, 50, 10000, -1.2, 20, 120000⟩
      "demand" 20000).1 (Or.inl rfl),
   (handleEdit_frame_and_elasticity ⟨50, 50, 10000, -1.2, 20, 120000⟩
      "demand" 20000).2 (by show (-1.2 : ℝ) < 0; norm_num)⟩
